import Mathlib

/-!
Verification of the scenario-raster engine and job-dispatch loop of
`backend-worker/worker.py` (urban-online-workflow), as a shallow embedding.

Numpy arrays become row-major `List (List Int)`; Python float arithmetic on
bounding-box coordinates becomes exact arithmetic on `ℚ`, with Python's
sign-follows-divisor `%` made explicit; the effectful control flow of the job
loop and of the raster operations (which call out to GDAL/pygeoprocessing for
pixel I/O) becomes explicit data flow, with the results of the external
library calls abstracted as parameters.
-/

namespace Worker

/-! ## Wallpaper tiling: the window body of `wallpaper_parcel`
(worker.py lines 466-494) -/

/-- One axis of `numpy.tile`: the list `l` repeated `n` times. -/
def repeatList (l : List α) : Nat → List α
  | 0 => []
  | n + 1 => l ++ repeatList l n

/-- `numpy.tile(a, (yreps, xreps))` on a row-major 2-D array. -/
def numpyTile (a : List (List α)) (yreps xreps : Nat) : List (List α) :=
  repeatList (a.map fun row => repeatList row xreps) yreps

/-- The slice `a[yoff : yoff + ysize, xoff : xoff + xsize]`. -/
def sliceWindow (a : List (List α)) (yoff ysize xoff xsize : Nat) : List (List α) :=
  ((a.drop yoff).take ysize).map fun row => (row.drop xoff).take xsize

/-- `a.shape[0]` of a row-major 2-D array: the number of rows. -/
def shape0 (a : List (List α)) : Nat := a.length

/-- `a.shape[1]` of a row-major 2-D array: the number of columns (the length of
the first row; numpy arrays are rectangular). -/
def shape1 (a : List (List α)) : Nat := (a.headD []).length

/-- The row-major list of lists represents a rectangular (numpy-like) array:
every row has the length `shape1`. -/
def Rectangular (a : List (List α)) : Prop :=
  ∀ row ∈ a, row.length = shape1 a

instance (a : List (List α)) : Decidable (Rectangular a) := by
  unfold Rectangular; infer_instance

/-- The body of the block loop of `wallpaper_parcel` (worker.py lines 471-487):
the phase `(wallpaper_y, wallpaper_x)` is the absolute window offset modulo the
pattern shape, the pattern array is tiled `1 + (phase + window size) // dim`
times per axis, and the block `[phase : phase + window size]` is sliced out. -/
def wallpaperWindow (wallpaper : List (List Int)) (yoff xoff win_ysize win_xsize : Nat) :
    List (List Int) :=
  let wallpaper_x := xoff % shape1 wallpaper
  let wallpaper_y := yoff % shape0 wallpaper
  let wallpaper_x_repeats := 1 + (wallpaper_x + win_xsize) / shape1 wallpaper
  let wallpaper_y_repeats := 1 + (wallpaper_y + win_ysize) / shape0 wallpaper
  sliceWindow (numpyTile wallpaper wallpaper_y_repeats wallpaper_x_repeats)
    wallpaper_y win_ysize wallpaper_x win_xsize

/-- `a[i][j]` with defaults, used to state which pattern pixel each output
pixel of the tiler holds. -/
def elemAt (a : List (List Int)) (i j : Nat) : Int :=
  (a[i]?.getD []).getD j 0

theorem repeatList_length (l : List α) (n : Nat) :
    (repeatList l n).length = n * l.length := by
  induction n with
  | zero => simp [repeatList]
  | succ n ih => simp only [repeatList, List.length_append, ih]; ring

theorem mem_repeatList {x : α} {l : List α} {n : Nat} (h : x ∈ repeatList l n) :
    x ∈ l := by
  induction n with
  | zero => simp [repeatList] at h
  | succ n ih =>
    rw [repeatList, List.mem_append] at h
    exact h.elim id ih

theorem repeatList_getElem? (l : List α) (n k : Nat) (h : k < n * l.length) :
    (repeatList l n)[k]? = l[k % l.length]? := by
  induction n generalizing k with
  | zero => omega
  | succ n ih =>
    rw [repeatList, List.getElem?_append]
    split
    · rw [Nat.mod_eq_of_lt (by assumption)]
    · have hL : l.length ≤ k := by omega
      have hrec : (n + 1) * l.length = n * l.length + l.length := Nat.succ_mul n l.length
      rw [ih (k - l.length) (by omega), Nat.mod_eq_sub_mod hL]

/-- The arithmetic heart of the repeat count: `1 + m / L` copies of a length-`L`
list are strictly longer than `m`. -/
theorem lt_tile_bound (L m : Nat) (hL : 0 < L) : m < (1 + m / L) * L := by
  have h1 := Nat.div_add_mod m L
  have h2 := Nat.mod_lt m hL
  calc m = L * (m / L) + m % L := h1.symm
    _ < L * (m / L) + L := by omega
    _ = (1 + m / L) * L := by ring

/-- Slicing `[off : off + size]` out of enough repetitions of `l` yields, at
position `j`, the element of `l` at index `(off + j) % l.length`. -/
theorem slice_repeatList (l : List α) (d : α) (off size : Nat) (hL : 0 < l.length) :
    ((repeatList l (1 + (off + size) / l.length)).drop off).take size
      = (List.range size).map fun j => l.getD ((off + j) % l.length) d := by
  apply List.ext_getElem?
  intro k
  rw [List.getElem?_take, List.getElem?_map]
  by_cases hk : k < size
  · have hbound : off + k < (1 + (off + size) / l.length) * l.length := by
      have := lt_tile_bound l.length (off + size) hL
      omega
    rw [if_pos hk, List.getElem?_drop, repeatList_getElem? l _ _ hbound,
      List.getElem?_range hk]
    have hmod : (off + k) % l.length < l.length := Nat.mod_lt _ hL
    rw [List.getElem?_eq_getElem hmod]
    simp [List.getD_eq_getElem?_getD, List.getElem?_eq_getElem hmod]
  · rw [if_neg hk, List.getElem?_eq_none (by simpa using Nat.le_of_not_lt hk)]
    rfl

theorem slice_repeatList' (l : List α) (d : α) (off size W : Nat) (hW : 0 < W)
    (hlen : l.length = W) :
    ((repeatList l (1 + (off + size) / W)).drop off).take size
      = (List.range size).map fun j => l.getD ((off + j) % W) d := by
  subst hlen
  exact slice_repeatList l d off size hW

/-- Pointwise characterization of the wallpaper block body: output pixel
`(i, j)` holds pattern pixel `((yoff + i) % H, (xoff + j) % W)` — a function of
the absolute raster position only, independent of the window decomposition. -/
theorem wallpaperWindow_eq (w : List (List Int)) (yoff xoff ys xs : Nat)
    (hrect : Rectangular w) (hH : 0 < shape0 w) (hW : 0 < shape1 w) :
    wallpaperWindow w yoff xoff ys xs =
      (List.range ys).map fun i => (List.range xs).map fun j =>
        elemAt w ((yoff + i) % shape0 w) ((xoff + j) % shape1 w) := by
  have hbig : (w.map fun row =>
      repeatList row (1 + (xoff % shape1 w + xs) / shape1 w)).length = shape0 w := by
    simp [shape0]
  simp only [wallpaperWindow, sliceWindow, numpyTile]
  rw [slice_repeatList' _ ([] : List Int) _ _ _ hH hbig, List.map_map]
  apply List.map_congr_left
  intro i hi
  simp only [Function.comp_apply]
  rw [Nat.mod_add_mod]
  have hmlt : (yoff + i) % shape0 w < w.length := Nat.mod_lt _ hH
  rw [List.getD_eq_getElem?_getD, List.getElem?_map, List.getElem?_eq_getElem hmlt]
  simp only [Option.map_some', Option.getD_some]
  rw [slice_repeatList' _ (0 : Int) _ _ _ hW (hrect _ (List.getElem_mem hmlt))]
  apply List.map_congr_left
  intro j hj
  rw [Nat.mod_add_mod]
  simp [elemAt, List.getElem?_eq_getElem hmlt]

/-- C1: Wallpaper tiling is block-invariant: for every pattern array and every
target window, the wallpapered values computed over sub-windows with phase
`(absolute offset) mod (H, W)` concatenate to the values computed over the
whole window in one pass — splitting the window into two adjacent sub-windows
along rows (list append) or along columns (row-wise append) gives the same
array. -/
theorem wallpaper_tiling_block_invariant (w : List (List Int))
    (yoff xoff ys1 ys2 xs1 xs2 : Nat)
    (hrect : Rectangular w) (hH : 0 < shape0 w) (hW : 0 < shape1 w) :
    wallpaperWindow w yoff xoff (ys1 + ys2) xs1 =
        wallpaperWindow w yoff xoff ys1 xs1
          ++ wallpaperWindow w (yoff + ys1) xoff ys2 xs1
  ∧ wallpaperWindow w yoff xoff ys1 (xs1 + xs2) =
        List.zipWith (· ++ ·) (wallpaperWindow w yoff xoff ys1 xs1)
          (wallpaperWindow w yoff (xoff + xs1) ys1 xs2) := by
  constructor
  · rw [wallpaperWindow_eq w yoff xoff (ys1 + ys2) xs1 hrect hH hW,
      wallpaperWindow_eq w yoff xoff ys1 xs1 hrect hH hW,
      wallpaperWindow_eq w (yoff + ys1) xoff ys2 xs1 hrect hH hW,
      List.range_add, List.map_append, List.map_map]
    congr 1
    apply List.map_congr_left
    intro i hi
    simp only [Function.comp_apply, Nat.add_assoc]
  · rw [wallpaperWindow_eq w yoff xoff ys1 (xs1 + xs2) hrect hH hW,
      wallpaperWindow_eq w yoff xoff ys1 xs1 hrect hH hW,
      wallpaperWindow_eq w yoff (xoff + xs1) ys1 xs2 hrect hH hW,
      List.zipWith_map, List.zipWith_same]
    apply List.map_congr_left
    intro i hi
    rw [List.range_add, List.map_append, List.map_map]
    congr 1
    apply List.map_congr_left
    intro j hj
    simp only [Function.comp_apply, Nat.add_assoc]

/-- Witness for the block-invariance theorem: a concrete 3×2 pattern, window at
absolute offset (5, 7), split into 2+3 rows and into 4+6 columns. -/
theorem wallpaper_tiling_block_invariant_witness :
    Rectangular ([[1, 2], [3, 4], [5, 6]] : List (List Int))
  ∧ 0 < shape0 ([[1, 2], [3, 4], [5, 6]] : List (List Int))
  ∧ 0 < shape1 ([[1, 2], [3, 4], [5, 6]] : List (List Int))
  ∧ (wallpaperWindow [[1, 2], [3, 4], [5, 6]] 5 7 (2 + 3) 4 =
        wallpaperWindow [[1, 2], [3, 4], [5, 6]] 5 7 2 4
          ++ wallpaperWindow [[1, 2], [3, 4], [5, 6]] (5 + 2) 7 3 4
      ∧ wallpaperWindow [[1, 2], [3, 4], [5, 6]] 5 7 2 (4 + 6) =
          List.zipWith (· ++ ·) (wallpaperWindow [[1, 2], [3, 4], [5, 6]] 5 7 2 4)
            (wallpaperWindow [[1, 2], [3, 4], [5, 6]] 5 (7 + 4) 2 6)) :=
  ⟨by decide, by decide, by decide,
    wallpaper_tiling_block_invariant [[1, 2], [3, 4], [5, 6]] 5 7 2 3 4 6
      (by decide) (by decide) (by decide)⟩

/-- C10: in the wallpaper loop, the repeat counts `1 + (phase + window size) //
dim` make the tiled array at least `phase + window size` long in each
dimension, so the slice `[phase : phase + window size]` is fully in bounds, and
the resulting block has exactly the window's shape `(win_ysize, win_xsize)`. -/
theorem wallpaper_tiled_in_bounds (w : List (List Int)) (yoff xoff ys xs : Nat)
    (hrect : Rectangular w) (hH : 0 < shape0 w) (hW : 0 < shape1 w)
    (hys : 0 < ys) (hxs : 0 < xs) :
    yoff % shape0 w + ys ≤
        shape0 (numpyTile w (1 + (yoff % shape0 w + ys) / shape0 w)
          (1 + (xoff % shape1 w + xs) / shape1 w))
  ∧ (∀ row ∈ numpyTile w (1 + (yoff % shape0 w + ys) / shape0 w)
        (1 + (xoff % shape1 w + xs) / shape1 w),
      xoff % shape1 w + xs ≤ row.length)
  ∧ shape0 (wallpaperWindow w yoff xoff ys xs) = ys
  ∧ ∀ row ∈ wallpaperWindow w yoff xoff ys xs, row.length = xs := by
  refine ⟨?_, ?_, ?_, ?_⟩
  · have h := lt_tile_bound (shape0 w) (yoff % shape0 w + ys) hH
    have hlen : shape0 (numpyTile w (1 + (yoff % shape0 w + ys) / shape0 w)
        (1 + (xoff % shape1 w + xs) / shape1 w))
          = (1 + (yoff % shape0 w + ys) / shape0 w) * shape0 w := by
      simp [shape0, numpyTile, repeatList_length]
    rw [hlen]
    omega
  · intro row hrow
    rw [numpyTile] at hrow
    obtain ⟨r, hr, rfl⟩ := List.mem_map.mp (mem_repeatList hrow)
    rw [repeatList_length, hrect r hr]
    have h := lt_tile_bound (shape1 w) (xoff % shape1 w + xs) hW
    omega
  · rw [wallpaperWindow_eq w yoff xoff ys xs hrect hH hW]
    simp [shape0]
  · intro row hrow
    rw [wallpaperWindow_eq w yoff xoff ys xs hrect hH hW] at hrow
    obtain ⟨i, hi, rfl⟩ := List.mem_map.mp hrow
    simp

/-- Witness for the in-bounds theorem: the 3×2 pattern, window at absolute
offset (5, 7) of size 2×4. -/
theorem wallpaper_tiled_in_bounds_witness :
    Rectangular ([[1, 2], [3, 4], [5, 6]] : List (List Int))
  ∧ 0 < shape0 ([[1, 2], [3, 4], [5, 6]] : List (List Int))
  ∧ 0 < shape1 ([[1, 2], [3, 4], [5, 6]] : List (List Int))
  ∧ 0 < 2 ∧ 0 < 4
  ∧ (5 % shape0 ([[1, 2], [3, 4], [5, 6]] : List (List Int)) + 2 ≤
        shape0 (numpyTile ([[1, 2], [3, 4], [5, 6]] : List (List Int))
          (1 + (5 % shape0 ([[1, 2], [3, 4], [5, 6]] : List (List Int)) + 2) /
            shape0 ([[1, 2], [3, 4], [5, 6]] : List (List Int)))
          (1 + (7 % shape1 ([[1, 2], [3, 4], [5, 6]] : List (List Int)) + 4) /
            shape1 ([[1, 2], [3, 4], [5, 6]] : List (List Int))))
      ∧ (∀ row ∈ numpyTile ([[1, 2], [3, 4], [5, 6]] : List (List Int))
            (1 + (5 % shape0 ([[1, 2], [3, 4], [5, 6]] : List (List Int)) + 2) /
              shape0 ([[1, 2], [3, 4], [5, 6]] : List (List Int)))
            (1 + (7 % shape1 ([[1, 2], [3, 4], [5, 6]] : List (List Int)) + 4) /
              shape1 ([[1, 2], [3, 4], [5, 6]] : List (List Int))),
          7 % shape1 ([[1, 2], [3, 4], [5, 6]] : List (List Int)) + 4 ≤ row.length)
      ∧ shape0 (wallpaperWindow [[1, 2], [3, 4], [5, 6]] 5 7 2 4) = 2
      ∧ ∀ row ∈ wallpaperWindow [[1, 2], [3, 4], [5, 6]] 5 7 2 4, row.length = 4) :=
  ⟨by decide, by decide, by decide, by decide, by decide,
    wallpaper_tiled_in_bounds [[1, 2], [3, 4], [5, 6]] 5 7 2 4
      (by decide) (by decide) (by decide) (by decide) (by decide)⟩

/-! ## Pixel counts under a parcel (`pixelcounts_under_parcel`,
worker.py lines 505-588) -/

/-- Two row-major arrays have the same numpy shape — the
`assert parcel_mask.shape == array.shape` of worker.py line 577. -/
def SameShape (a b : List (List Int)) : Prop :=
  a.length = b.length ∧ ∀ p ∈ a.zip b, p.1.length = p.2.length

instance (a b : List (List Int)) : Decidable (SameShape a b) := by
  unfold SameShape; infer_instance

/-- `array[parcel_mask == 1]` (worker.py line 579): the source values at the
positions where the rasterized all-touched mask equals 1, row-major. -/
def maskedValues (array mask : List (List Int)) : List Int :=
  ((array.zip mask).map fun p =>
    (p.1.zip p.2).filterMap fun q => if q.2 = 1 then some q.1 else none).flatten

/-- `numpy.unique(..., return_counts=True)` plus the dict construction of
`pixelcounts_under_parcel` (worker.py lines 578-588): each distinct observed
value paired with the number of its occurrences. -/
def uniqueCounts (vals : List Int) : List (Int × Nat) :=
  vals.dedup.map fun v => (v, vals.count v)

/-- The result mapping of `pixelcounts_under_parcel`, as a function of the
pixel window read from the source raster and of the in-memory mask raster
rasterized from the polygon (both produced by external GDAL calls). -/
def pixelcounts_under_parcel (array mask : List (List Int)) : List (Int × Nat) :=
  uniqueCounts (maskedValues array mask)

theorem maskedRow_length (r m : List Int) (h : r.length = m.length) :
    ((r.zip m).filterMap fun q => if q.2 = 1 then some q.1 else none).length
      = m.count 1 := by
  induction r generalizing m with
  | nil =>
    cases m with
    | nil => simp
    | cons y ys => simp at h
  | cons x xs ih =>
    cases m with
    | nil => simp at h
    | cons y ys =>
      simp only [List.zip_cons_cons, List.filterMap_cons, List.count_cons]
      by_cases hy : y = 1
      · rw [if_pos hy]
        simp [ih ys (by simpa using h), hy]
      · rw [if_neg hy]
        simp [ih ys (by simpa using h), hy]

theorem maskedValues_length (array mask : List (List Int)) (h : SameShape array mask) :
    (maskedValues array mask).length = mask.flatten.count 1 := by
  obtain ⟨hlen, hrows⟩ := h
  rw [maskedValues, List.length_flatten, List.count_flatten, List.map_map]
  have h1 : (array.zip mask).map (List.length ∘ fun p =>
        (p.1.zip p.2).filterMap fun q => if q.2 = 1 then some q.1 else none)
      = (array.zip mask).map fun p => p.2.count 1 :=
    List.map_congr_left fun p hp => maskedRow_length p.1 p.2 (hrows p hp)
  rw [h1, show (fun p : List Int × List Int => p.2.count 1)
      = (List.count 1 ∘ Prod.snd) from rfl, ← List.map_map,
    List.map_snd_zip _ _ (le_of_eq hlen.symm)]

/-- C5: the pixel-stats result maps each observed class code to a positive
count: the counts sum to the number of window pixels whose all-touched mask
equals 1, and a code absent under the mask never appears (no zero entries). -/
theorem pixelcounts_sum_and_members (array mask : List (List Int))
    (h : SameShape array mask) :
    ((pixelcounts_under_parcel array mask).map Prod.snd).sum = mask.flatten.count 1
  ∧ ∀ p ∈ pixelcounts_under_parcel array mask,
      p.1 ∈ maskedValues array mask ∧ 0 < p.2 := by
  constructor
  · rw [pixelcounts_under_parcel, uniqueCounts, List.map_map]
    rw [show (Prod.snd ∘ fun v => (v, (maskedValues array mask).count v))
        = fun v => (maskedValues array mask).count v from rfl]
    rw [List.sum_map_count_dedup_eq_length, maskedValues_length array mask h]
  · intro p hp
    rw [pixelcounts_under_parcel, uniqueCounts] at hp
    obtain ⟨v, hv, rfl⟩ := List.mem_map.mp hp
    have hv' := List.mem_dedup.mp hv
    exact ⟨hv', List.count_pos_iff.mpr hv'⟩

/-- Witness for the pixel-stats theorem: a 2×2 window with three mask pixels. -/
theorem pixelcounts_sum_and_members_witness :
    SameShape [[5, 6], [6, 7]] [[1, 1], [0, 1]]
  ∧ (((pixelcounts_under_parcel [[5, 6], [6, 7]] [[1, 1], [0, 1]]).map Prod.snd).sum
        = ([[1, 1], [0, 1]] : List (List Int)).flatten.count 1
      ∧ ∀ p ∈ pixelcounts_under_parcel [[5, 6], [6, 7]] [[1, 1], [0, 1]],
          p.1 ∈ maskedValues [[5, 6], [6, 7]] [[1, 1], [0, 1]] ∧ 0 < p.2) :=
  ⟨by decide, pixelcounts_sum_and_members [[5, 6], [6, 7]] [[1, 1], [0, 1]] (by decide)⟩

/-! ## Fill (`fill_parcel`, worker.py lines 364-400) -/

/-- The pixel-level effect of `fill_parcel` (worker.py lines 385-398): the
output starts from the base window written by
`_create_new_lulc(..., include_pixel_values=True)`, and
`pygeoprocessing.rasterize(..., [fill_lulc_class], ALL_TOUCHED=TRUE)` burns
`fill_lulc_class` at exactly the pixels whose all-touched rasterization mask of
the parcel is 1.  The mask is computed by the external geoprocessing library
and abstracted here as `mask`. -/
def fill_parcel (base mask : List (List Int)) (fill_lulc_class : Int) :
    List (List Int) :=
  List.zipWith (fun brow mrow =>
    List.zipWith (fun b m => if m = 1 then fill_lulc_class else b) brow mrow) base mask

/-- `a[i][j]` as an `Option`, for pointwise statements about windows. -/
def pixAt (a : List (List Int)) (i j : Nat) : Option Int :=
  (a[i]?.getD [])[j]?

theorem fillRow_count (c : Int) (brow mrow : List Int) (h : brow.length = mrow.length)
    (hc : ∀ q ∈ brow.zip mrow, q.2 ≠ 1 → q.1 ≠ c) :
    (List.zipWith (fun b m => if m = 1 then c else b) brow mrow).count c
      = mrow.count 1 := by
  induction brow generalizing mrow with
  | nil =>
    cases mrow with
    | nil => simp
    | cons y ys => simp at h
  | cons b bs ih =>
    cases mrow with
    | nil => simp at h
    | cons m ms =>
      have hc' : ∀ q ∈ bs.zip ms, q.2 ≠ 1 → q.1 ≠ c := fun q hq =>
        hc q (by rw [List.zip_cons_cons]; exact List.mem_cons_of_mem _ hq)
      by_cases hm : m = 1
      · simp [List.count_cons, hm, ih ms (by simpa using h) hc']
      · have hb : b ≠ c := hc (b, m) (by rw [List.zip_cons_cons]; exact List.mem_cons_self _ _) hm
        simp [List.count_cons, hm, hb, ih ms (by simpa using h) hc']

theorem fill_count_aux (c : Int) (base : List (List Int)) :
    ∀ mask : List (List Int), base.length = mask.length →
      (∀ p ∈ base.zip mask, p.1.length = p.2.length) →
      (∀ p ∈ base.zip mask, ∀ q ∈ p.1.zip p.2, q.2 ≠ 1 → q.1 ≠ c) →
      (fill_parcel base mask c).flatten.count c = mask.flatten.count 1 := by
  induction base with
  | nil =>
    intro mask hlen hrows hc
    cases mask with
    | nil => simp [fill_parcel]
    | cons mrow ms => simp at hlen
  | cons brow bs ih =>
    intro mask hlen hrows hc
    cases mask with
    | nil => simp at hlen
    | cons mrow ms =>
      have hz : (brow :: bs).zip (mrow :: ms) = (brow, mrow) :: bs.zip ms := rfl
      have hhead : (brow, mrow) ∈ (brow :: bs).zip (mrow :: ms) := by
        rw [hz]; exact List.mem_cons_self _ _
      have htail : ∀ p ∈ bs.zip ms, p ∈ (brow :: bs).zip (mrow :: ms) := fun p hp => by
        rw [hz]; exact List.mem_cons_of_mem _ hp
      simp only [fill_parcel, List.zipWith_cons_cons, List.flatten_cons, List.count_append]
      rw [fillRow_count c brow mrow (hrows _ hhead) (hc _ hhead)]
      have hrec := ih ms (by simpa using hlen)
        (fun p hp => hrows p (htail p hp)) (fun p hp => hc p (htail p hp))
      rw [fill_parcel] at hrec
      rw [hrec]

theorem fill_pix_aux (base mask : List (List Int)) (c : Int)
    (hlen : base.length = mask.length)
    (hrows : ∀ p ∈ base.zip mask, p.1.length = p.2.length)
    (i j : Nat) (hm : pixAt mask i j ≠ some 1) :
    pixAt (fill_parcel base mask c) i j = pixAt base i j := by
  simp only [pixAt, fill_parcel] at hm ⊢
  rw [List.getElem?_zipWith']
  by_cases hi : i < base.length
  · have him : i < mask.length := by omega
    have hmin : i < (base.zip mask).length := by
      rw [List.length_zip]; omega
    have hpair : (base.zip mask)[i] = (base[i], mask[i]) := List.getElem_zip
    have hrow : base[i].length = mask[i].length := by
      have := hrows _ (hpair ▸ List.getElem_mem hmin)
      simpa using this
    rw [List.getElem?_eq_getElem him] at hm
    rw [List.getElem?_eq_getElem hi, List.getElem?_eq_getElem him]
    simp only [Option.getD_some] at hm
    simp only [Option.map_some', Option.some_bind, Option.getD_some]
    rw [List.getElem?_zipWith']
    by_cases hj : j < base[i].length
    · have hjm : j < mask[i].length := by omega
      rw [List.getElem?_eq_getElem hjm] at hm
      rw [List.getElem?_eq_getElem hj, List.getElem?_eq_getElem hjm]
      simp only [Option.map_some', Option.some_bind]
      have hne : mask[i][j] ≠ 1 := by
        intro h1
        exact hm (by rw [h1])
      rw [if_neg hne]
    · have h1 : base[i][j]? = none := List.getElem?_eq_none (by omega)
      have h2 : mask[i][j]? = none := List.getElem?_eq_none (by omega)
      rw [h1, h2]
      simp
  · have h1 : base[i]? = none := List.getElem?_eq_none (by omega)
    rw [h1]
    simp

/-- C6 counterexample: with base window `[[15]]` and a mask `[[0]]` marking no
pixel, filling with class 15 leaves one pixel equal to 15 while the mask counts
zero pixels, so the claimed count equality fails on the code. -/
theorem fill_parcel_count_counterexample :
    (fill_parcel [[15]] [[0]] 15).flatten.count 15 = 1
  ∧ ([[0]] : List (List Int)).flatten.count 1 = 0
  ∧ ¬ ((fill_parcel [[15]] [[0]] 15).flatten.count 15
        = ([[0]] : List (List Int)).flatten.count 1) := by
  refine ⟨by decide, by decide, by decide⟩

/-- C6 (amended): after `fill_parcel`, the count of output pixels equal to the
fill class equals the count of mask-1 pixels, provided the fill class does not
already occur in the base window at a pixel the mask leaves unfilled; and every
pixel whose mask is not 1 — nodata or not — keeps its base value. -/
theorem fill_parcel_conservation (base mask : List (List Int)) (c : Int)
    (h : SameShape base mask)
    (hc : ∀ p ∈ base.zip mask, ∀ q ∈ p.1.zip p.2, q.2 ≠ 1 → q.1 ≠ c) :
    (fill_parcel base mask c).flatten.count c = mask.flatten.count 1
  ∧ ∀ i j : Nat, pixAt mask i j ≠ some 1 →
      pixAt (fill_parcel base mask c) i j = pixAt base i j := by
  obtain ⟨hlen, hrows⟩ := h
  exact ⟨fill_count_aux c base mask hlen hrows hc,
    fun i j hm => fill_pix_aux base mask c hlen hrows i j hm⟩

/-- Witness for the fill conservation theorem: a 2×2 base with fill class 3 not
present outside the mask. -/
theorem fill_parcel_conservation_witness :
    SameShape [[5, 7], [7, 9]] [[1, 0], [0, 1]]
  ∧ (∀ p ∈ ([[5, 7], [7, 9]] : List (List Int)).zip [[1, 0], [0, 1]],
      ∀ q ∈ p.1.zip p.2, q.2 ≠ 1 → q.1 ≠ 3)
  ∧ ((fill_parcel [[5, 7], [7, 9]] [[1, 0], [0, 1]] 3).flatten.count 3
        = ([[1, 0], [0, 1]] : List (List Int)).flatten.count 1
      ∧ ∀ i j : Nat, pixAt [[1, 0], [0, 1]] i j ≠ some 1 →
          pixAt (fill_parcel [[5, 7], [7, 9]] [[1, 0], [0, 1]] 3) i j
            = pixAt [[5, 7], [7, 9]] i j) :=
  ⟨by decide, by decide,
    fill_parcel_conservation [[5, 7], [7, 9]] [[1, 0], [0, 1]] 3 (by decide) (by decide)⟩

/-! ## Pixel-aligned extent (`_create_new_lulc`, worker.py lines 333-349) -/

/-- Python's `%` on reals, exactly, over `ℚ`: `a % b = a - b * floor(a / b)`,
so the result takes the divisor's sign. -/
def pymod (a b : ℚ) : ℚ := a - b * ⌊a / b⌋

/-- An axis-aligned bounding box `(minx, miny, maxx, maxy)`. -/
structure Extent where
  minx : ℚ
  miny : ℚ
  maxx : ℚ
  maxy : ℚ
deriving DecidableEq, Repr

/-- The edge-snapping computation of `_create_new_lulc` (worker.py lines
340-343), verbatim: each min edge is decreased by the absolute residual of
`(edge - origin) % pixelsize`, and each max edge is increased by
`pixelsize - abs(residual)` — on the y axis with the raster's conventionally
negative `PIXELSIZE_Y`. -/
def alignExtent (originX originY pixX pixY : ℚ) (e : Extent) : Extent :=
  { minx := e.minx - |pymod (e.minx - originX) pixX|
    miny := e.miny - |pymod (e.miny - originY) pixY|
    maxx := e.maxx + (pixX - |pymod (e.maxx - originX) pixX|)
    maxy := e.maxy + (pixY - |pymod (e.maxy - originY) pixY|) }

/-- With a negative y pixel size the max-y edge always moves down by at least
`|pixY|`: line 343 adds `PIXELSIZE_Y - abs(residual) < 0` to `buf_maxy`. -/
theorem alignExtent_maxy_shrinks (originX originY pixX pixY : ℚ) (hy : pixY < 0)
    (e : Extent) :
    (alignExtent originX originY pixX pixY e).maxy < e.maxy := by
  rw [alignExtent]
  have h := abs_nonneg (pymod (e.maxy - originY) pixY)
  dsimp only
  linarith

/-- C2: the pixel-aligned extent fails to contain the requested extent on the
max-y edge.  At grid origin `(0, 0)`, base pixel sizes `(30, -30)` and
requested box `(0, 0, 10, 10)`, the computation returns `(0, 0, 30, -40)`:
the top edge drops from 10 to -40 (the other three edges do expand), so the
claimed four-edge containment is violated by the code. -/
theorem alignExtent_containment_fails :
    alignExtent 0 0 30 (-30) ⟨0, 0, 10, 10⟩ = ⟨0, 0, 30, -40⟩
  ∧ (alignExtent 0 0 30 (-30) ⟨0, 0, 10, 10⟩).maxy < (Extent.mk 0 0 10 10).maxy
  ∧ ¬ ((Extent.mk 0 0 10 10).maxy ≤ (alignExtent 0 0 30 (-30) ⟨0, 0, 10, 10⟩).maxy) := by
  refine ⟨?_, ?_, ?_⟩ <;> norm_num [alignExtent, pymod, Extent.mk.injEq, abs]

theorem pymod_int_mul (p : ℚ) (hp : p ≠ 0) (k : ℤ) : pymod ((k : ℚ) * p) p = 0 := by
  rw [pymod, mul_div_cancel_right₀ _ hp, Int.floor_intCast]
  ring

/-- C3 counterexample: the box `(0, -30, 30, 0)` already lies exactly on the
pixel grid with origin `(0, 0)` and pixel sizes `(30, -30)`, yet the
edge-snapping computation returns `(0, -30, 60, -30)` — not the same box. -/
theorem alignExtent_not_idempotent :
    alignExtent 0 0 30 (-30) ⟨0, -30, 30, 0⟩ = ⟨0, -30, 60, -30⟩
  ∧ alignExtent 0 0 30 (-30) ⟨0, -30, 30, 0⟩ ≠ ⟨0, -30, 30, 0⟩ := by
  constructor <;> norm_num [alignExtent, pymod, Extent.mk.injEq, abs]

/-- C3 (amended): on a box whose four edges lie on exact pixel multiples from
the grid origin, every residual is zero, so the min edges come back unchanged —
but each max edge still receives a full `pixelsize` of padding
(`pixelsize - 0`): re-aligning an aligned box is not the identity. -/
theorem alignExtent_on_aligned (originX originY pixX pixY : ℚ) (e : Extent)
    (k1 k2 k3 k4 : ℤ) (hx : pixX ≠ 0) (hy : pixY ≠ 0)
    (h1 : e.minx - originX = (k1 : ℚ) * pixX)
    (h2 : e.miny - originY = (k2 : ℚ) * pixY)
    (h3 : e.maxx - originX = (k3 : ℚ) * pixX)
    (h4 : e.maxy - originY = (k4 : ℚ) * pixY) :
    alignExtent originX originY pixX pixY e
      = ⟨e.minx, e.miny, e.maxx + pixX, e.maxy + pixY⟩ := by
  rw [alignExtent, h1, h2, h3, h4, pymod_int_mul _ hx, pymod_int_mul _ hy,
    pymod_int_mul _ hx, pymod_int_mul _ hy]
  simp [Extent.mk.injEq]

/-- Witness for the aligned-box theorem at the concrete grid-aligned box
`(0, -30, 30, 0)` on the `(30, -30)` grid with origin `(0, 0)`. -/
theorem alignExtent_on_aligned_witness :
    (30 : ℚ) ≠ 0 ∧ (-30 : ℚ) ≠ 0
  ∧ (Extent.mk 0 (-30) 30 0).minx - 0 = ((0 : ℤ) : ℚ) * 30
  ∧ (Extent.mk 0 (-30) 30 0).miny - 0 = ((1 : ℤ) : ℚ) * (-30)
  ∧ (Extent.mk 0 (-30) 30 0).maxx - 0 = ((1 : ℤ) : ℚ) * 30
  ∧ (Extent.mk 0 (-30) 30 0).maxy - 0 = ((0 : ℤ) : ℚ) * (-30)
  ∧ alignExtent 0 0 30 (-30) ⟨0, -30, 30, 0⟩
      = ⟨(Extent.mk 0 (-30) 30 0).minx, (Extent.mk 0 (-30) 30 0).miny,
          (Extent.mk 0 (-30) 30 0).maxx + 30, (Extent.mk 0 (-30) 30 0).maxy + (-30)⟩ :=
  ⟨by norm_num, by norm_num, by norm_num, by norm_num, by norm_num, by norm_num,
    alignExtent_on_aligned 0 0 30 (-30) ⟨0, -30, 30, 0⟩ 0 1 1 0
      (by norm_num) (by norm_num) (by norm_num) (by norm_num)
      (by norm_num) (by norm_num)⟩

/-! ## Working-directory lifetime of the raster operations
(`fill_parcel` worker.py lines 386-400, `wallpaper_parcel` lines 429-502) -/

/-- Exit record of one raster-operation call: whether the working directory
created by `tempfile.mkdtemp` was removed before returning, and whether an
exception escaped the call. -/
structure RunExit where
  dirRemoved : Bool
  raised : Bool
deriving DecidableEq, Repr

/-- Straight-line execution of an operation body after `tempfile.mkdtemp`:
each entry of the list tells whether the corresponding body statement raises.
Neither operation installs a try/finally, so the trailing
`shutil.rmtree(working_dir)` runs only when every step before it succeeds. -/
def runStraightLine : List Bool → RunExit
  | [] => ⟨true, false⟩
  | raisesHere :: rest =>
    if raisesHere then ⟨false, true⟩ else runStraightLine rest

/-- Control flow of `fill_parcel` (worker.py lines 385-400): after `mkdtemp`
the body runs `shapely_geometry_to_vector`, `_create_new_lulc` and
`rasterize`, then `shutil.rmtree(working_dir)`. -/
def fill_parcel_run (toVectorRaises createLulcRaises rasterizeRaises : Bool) :
    RunExit :=
  runStraightLine [toVectorRaises, createLulcRaises, rasterizeRaises]

/-- Control flow of `wallpaper_parcel` (worker.py lines 429-502): after
`mkdtemp` the body runs the mask `fill_parcel`, the two `warp_raster` calls
with `raster_to_numpy_array`, the grid-sanity `assert`s, and
`new_raster_from_base` with the block-write loop and `BuildOverviews`, then
`shutil.rmtree(working_dir)`. -/
def wallpaper_parcel_run (fillRaises warpParcelRaises warpPatternRaises
    sanityAssertRaises writeLoopRaises : Bool) : RunExit :=
  runStraightLine [fillRaises, warpParcelRaises, warpPatternRaises,
    sanityAssertRaises, writeLoopRaises]

/-- C7 counterexample: if `rasterize` raises inside `fill_parcel`, or the
grid-sanity `assert` fails inside `wallpaper_parcel`, the exception escapes
and the working directory is NOT removed — cleanup is missed on the exception
exit path. -/
theorem workdir_not_removed_on_exception :
    fill_parcel_run false false true = ⟨false, true⟩
  ∧ wallpaper_parcel_run false false false true false = ⟨false, true⟩
  ∧ ¬ (fill_parcel_run false false true).dirRemoved := by
  decide

/-- C7 (amended): each operation removes its working directory exactly on the
success path; whenever any body step raises, the exception propagates (there
is no handler or finally) and the directory is left behind. -/
theorem workdir_removed_iff_no_raise :
    (∀ a b c : Bool, fill_parcel_run a b c
        = if a || b || c then ⟨false, true⟩ else ⟨true, false⟩)
  ∧ (∀ a b c d e : Bool, wallpaper_parcel_run a b c d e
        = if a || b || c || d || e then ⟨false, true⟩ else ⟨true, false⟩) := by
  decide

/-! ## Geometry reprojection (`_reproject_to_nlud`, worker.py lines 298-317) -/

/-- Outcome of `_reproject_to_nlud`, as a function of the input WKT, the error
code reported by `ogr_geom.Transform`, and the WKT the transform produced.  A
nonzero error code only triggers `LOGGER.warning` and execution continues; the
only raise is the `assert ogr_geom.ExportToWkt() != parcel_wkt_epsg3857` of
line 315 (`Except.error` stands for its `AssertionError`). -/
def reproject_to_nlud (parcel_wkt_epsg3857 : String) (transformErrCode : Bool)
    (transformedWkt : String) : Except Unit String :=
  if transformedWkt = parcel_wkt_epsg3857 then Except.error ()
  else Except.ok transformedWkt

/-- C8 counterexample: the transform reports an error code and the output WKT
differs from the input, yet the function returns the geometry instead of
raising — an error code alone is not treated as a failure. -/
theorem reproject_error_code_does_not_raise :
    reproject_to_nlud "POLYGON A" true "POLYGON B" = Except.ok "POLYGON B"
  ∧ "POLYGON B" ≠ "POLYGON A" := by
  refine ⟨?_, by decide⟩
  rw [reproject_to_nlud, if_neg (by decide)]

/-- C8 (amended): the reprojection raises exactly when the output WKT equals
the input WKT, and the transform's reported error code has no effect on the
outcome — it is only logged. -/
theorem reproject_raises_iff_unchanged :
    (∀ (i o : String) (e : Bool),
        reproject_to_nlud i e o = Except.error () ↔ o = i)
  ∧ ∀ (i o : String), reproject_to_nlud i true o = reproject_to_nlud i false o := by
  constructor
  · intro i o e
    rw [reproject_to_nlud]
    split
    · simp [*]
    · simp [*]
  · intro i o
    rfl

/-! ## Projection in which the serviceshed buffer is applied
(`_create_new_lulc` worker.py lines 333-336, module constants lines 41-113) -/

/-- The two spatial reference systems of the module: EPSG:3857 web mercator
(the display projection) and the Albers equal-area projection. -/
inductive Proj
  | webMercator
  | albersEqualArea
deriving DecidableEq, Repr

/-- The module-level assertion of worker.py lines 72-73: the base LULC raster
itself is projected in web mercator. -/
def LULC_PROJ : Proj := Proj.webMercator

/-- A geometry tagged with the projection its coordinates live in, recording
each buffer operation together with the projection it was applied in and its
radius. -/
structure GeomState where
  proj : Proj
  buffersApplied : List (Proj × ℚ)
deriving DecidableEq, Repr

/-- `shapely.wkt.loads` keeps the coordinates as given. -/
def shapelyLoads (p : Proj) : GeomState := ⟨p, []⟩

/-- `shapely`'s planar `buffer` works in the geometry's own coordinates. -/
def shapelyBuffer (g : GeomState) (r : ℚ) : GeomState :=
  ⟨g.proj, g.buffersApplied ++ [(g.proj, r)]⟩

/-- The coordinate transformation of `_reproject_to_nlud` on the projection
tag: web mercator to Albers equal-area. -/
def reprojectToAlbers (g : GeomState) : GeomState :=
  ⟨Proj.albersEqualArea, g.buffersApplied⟩

/-- The largest serviceshed radius, worker.py line 113. -/
def LARGEST_SERVICESHED : ℚ := 1600

/-- The geometry pipeline of `_create_new_lulc` up to the buffered bounds
(worker.py lines 333-336): the parcel WKT — which arrives in EPSG:3857 — is
loaded with `shapely.wkt.loads` and buffered directly; `_reproject_to_nlud`
is never called on this path. -/
def create_new_lulc_buffered : GeomState :=
  shapelyBuffer (shapelyLoads Proj.webMercator) LARGEST_SERVICESHED

/-- C9 counterexample: the serviceshed buffer is applied in the display
web-mercator projection, not in the Albers equal-area projection. -/
theorem buffer_in_web_mercator_not_albers :
    create_new_lulc_buffered.buffersApplied
      = [(Proj.webMercator, LARGEST_SERVICESHED)]
  ∧ ∀ q ∈ create_new_lulc_buffered.buffersApplied, q.1 ≠ Proj.albersEqualArea := by
  constructor
  · rfl
  · intro q hq
    rw [show create_new_lulc_buffered.buffersApplied
        = [(Proj.webMercator, LARGEST_SERVICESHED)] from rfl] at hq
    rw [List.mem_singleton.mp hq]
    decide

/-- C9 (amended): the parcel is buffered by `LARGEST_SERVICESHED` in the
display web-mercator projection — which, by the module's own assertion, is
also the base LULC raster's projection — and this is the only buffer applied
before the bounds are aligned to the grid. -/
theorem buffer_in_lulc_projection :
    create_new_lulc_buffered.buffersApplied = [(LULC_PROJ, LARGEST_SERVICESHED)]
  ∧ LULC_PROJ = Proj.webMercator
  ∧ create_new_lulc_buffered.proj = LULC_PROJ :=
  ⟨rfl, rfl, rfl⟩

/-! ## Job dispatch (`do_work`, worker.py lines 632-776) -/

def STATUS_SUCCESS : String := "success"

def STATUS_FAILED : String := "failed"

def JOBTYPE_FILL : String := "lulc_fill"

def JOBTYPE_WALLPAPER : String := "wallpaper"

def JOBTYPE_CROP : String := "lulc_crop"

def JOBTYPE_PARCEL_STATS : String := "stats_under_parcel"

def JOBTYPE_PATTERN_THUMBNAIL : String := "pattern_thumbnail"

def JOBTYPE_INVEST : String := "invest"

/-- The endpoint table of worker.py lines 128-135. -/
def ENDPOINTS : List (String × String) :=
  [(JOBTYPE_FILL, "scenario"), (JOBTYPE_WALLPAPER, "scenario"),
   (JOBTYPE_CROP, "scenario"), (JOBTYPE_PARCEL_STATS, "parcel_stats"),
   (JOBTYPE_PATTERN_THUMBNAIL, "pattern"), (JOBTYPE_INVEST, "invest")]

/-- The job-type tags handled by the dispatch chain of `do_work` (worker.py
lines 663-760); any other tag reaches `raise ValueError("Invalid job type")`,
which the `except` clause catches. -/
def handledJobTypes : List String :=
  [JOBTYPE_FILL, JOBTYPE_WALLPAPER, JOBTYPE_CROP, JOBTYPE_PARCEL_STATS,
   JOBTYPE_INVEST]

/-- Observable outcome of one iteration of the `while True` job loop: whether
a dispatched operation started executing, the `status` value set by the
try/except, whether `data` carries the fixed failure marker as its result,
whether the result was posted back to the queue, and whether an exception
escaped the iteration. -/
structure IterOutcome where
  ranOperation : Bool
  statusSet : Option String
  resultIsFailureMarker : Bool
  posted : Bool
  escaped : Bool
deriving DecidableEq, Repr

/-- One iteration of the job loop of `do_work` (worker.py lines 661-776) for a
fetched job of type `job_type`: the try/except/finally dispatch and
result-posting control flow.  `operationRaises` abstracts whether the
dispatched operation itself raises, for handled job types.  In the `finally`
block `data` is completed and `requests.post` is called on the endpoint
`ENDPOINTS[job_type]`; when `job_type` is not a key of `ENDPOINTS`, that
lookup raises `KeyError`, the post never happens, and the exception escapes
the loop. -/
def processJob (job_type : String) (operationRaises : Bool) : IterOutcome :=
  let tryOutcome :=
    if job_type ∈ handledJobTypes then
      if operationRaises then (true, STATUS_FAILED, true)
      else (true, STATUS_SUCCESS, false)
    else (false, STATUS_FAILED, true)
  match ENDPOINTS.lookup job_type with
  | some _ => ⟨tryOutcome.1, some tryOutcome.2.1, tryOutcome.2.2, true, false⟩
  | none => ⟨tryOutcome.1, some tryOutcome.2.1, tryOutcome.2.2, false, true⟩

/-- C4: a job with the unrecognized type tag "bogus" never executes an
operation and always builds the uniform failure payload — but the failure
result is never posted: the `ENDPOINTS[job_type]` lookup in the `finally`
block raises `KeyError`, which escapes the job loop unhandled, contradicting
the claim that no exception escapes. -/
theorem unknown_job_type_outcome :
    (∀ b : Bool, processJob "bogus" b
        = ⟨false, some STATUS_FAILED, true, false, true⟩)
  ∧ (processJob "bogus" false).ranOperation = false
  ∧ (processJob "bogus" false).resultIsFailureMarker = true
  ∧ (processJob "bogus" false).escaped = true := by
  refine ⟨fun b => ?_, by decide, by decide, by decide⟩
  cases b <;> decide
